import Mathlib

/-!
Shallow embedding of the WEEKLYPLANNER backend (a small Node HTTP server that
authenticates employees against spreadsheet-stored credentials, serves a
per-employee activity schedule, and keeps an in-memory session store).

Modelling conventions:
* A spreadsheet/JSON cell is an `Option String`: `none` models the JavaScript
  values `undefined` and `null` (which every operation the server applies to a
  cell treats identically), `some s` models a string cell.
* A row (JavaScript object) is a function `String → Option String` from
  property names to values; property update and `delete` are function updates.
* External cryptographic collaborators (`crypto.scryptSync`,
  `crypto.createHash('sha256')`) and the external date parser
  (`new Date(...).toISOString()`, `none` = invalid date) are parameters of the
  functions that call them, as is the JavaScript `Number(...)` conversion used
  for meeting numbers (`none` = not a finite number).
* Code that can throw is modelled with `Except String`; the server's
  top-level catch handler maps a thrown error to a 500 response.
-/

namespace WeeklyPlanner

/-- Decidable equality of `Except` results, used to evaluate the embedded
fallible operations on concrete inputs. -/
instance {ε α : Type} [DecidableEq ε] [DecidableEq α] : DecidableEq (Except ε α) :=
  fun x y =>
    match x, y with
    | .ok a, .ok b =>
      if h : a = b then isTrue (by rw [h]) else isFalse (fun hh => h (Except.ok.inj hh))
    | .error a, .error b =>
      if h : a = b then isTrue (by rw [h]) else isFalse (fun hh => h (Except.error.inj hh))
    | .ok _, .error _ => isFalse (fun hh => Except.noConfusion hh)
    | .error _, .ok _ => isFalse (fun hh => Except.noConfusion hh)

/-- JavaScript whitespace test, modelled with the common ASCII whitespace
characters that `String.prototype.trim` removes. -/
def cWs (c : Char) : Bool := c.isWhitespace

/-- Trimming of a character list at both ends (the content of `trim()`). -/
def trimChars (l : List Char) : List Char :=
  ((l.dropWhile cWs).reverse.dropWhile cWs).reverse

/-- `String.prototype.trim`. -/
def jsTrim (s : String) : String := (trimChars s.toList).asString

/-- `cleanValue` from the source: '' for undefined/null, else the trimmed
string form of the value. -/
def cleanValue (v : Option String) : String := jsTrim (v.getD "")

/-- JavaScript truthiness of a string-or-undefined value. -/
def truthy : Option String → Bool
  | none => false
  | some s => s ≠ ""

/-- JavaScript `a || b` on cell values. -/
def jsOr (a b : Option String) : Option String := if truthy a then a else b

/-- `hasValue` from the source: defined and non-empty after trimming. -/
def hasValue : Option String → Bool
  | none => false
  | some s => jsTrim s ≠ ""

/-- `normalizeProgramName` from the source; the locale-aware lower-casing
(`toLocaleLowerCase('en-US')`) is modelled by per-character lower-casing. -/
def normalizeProgramName (v : Option String) : String :=
  ((cleanValue v).toList.map Char.toLower).asString

/-- A row (JavaScript object): property name to cell value. -/
def Row : Type := String → Option String

/-- Property assignment `row[k] = v` (and, with `none`, `delete row[k]`). -/
def updateRow (r : Row) (k : String) (v : Option String) : Row :=
  fun q => if q = k then v else r q

/-- Lower-case hex digit for a nibble, as produced by `Buffer.toString('hex')`. -/
def hexDigitChar (n : Nat) : Char := Char.ofNat (if n < 10 then 48 + n else 87 + n)

/-- Hex characters of a byte list (`Buffer.toString('hex')`). -/
def toHexChars : List Nat → List Char
  | [] => []
  | b :: bs => hexDigitChar (b / 16) :: hexDigitChar (b % 16) :: toHexChars bs

/-- `Buffer.toString('hex')`: lower-case hex string of a byte list. -/
def toHex (bs : List Nat) : String := (toHexChars bs).asString

/-- Value of one hex character (`Buffer.from(.,'hex')` accepts both cases). -/
def hexCharVal (c : Char) : Option Nat :=
  if 48 ≤ c.toNat ∧ c.toNat ≤ 57 then some (c.toNat - 48)
  else if 97 ≤ c.toNat ∧ c.toNat ≤ 102 then some (c.toNat - 87)
  else if 65 ≤ c.toNat ∧ c.toNat ≤ 70 then some (c.toNat - 55)
  else none

/-- Pairwise hex decoding; like Node's `Buffer.from(s, 'hex')` it stops at the
first invalid or incomplete pair. -/
def hexPairsToBytes : List Char → List Nat
  | c1 :: c2 :: rest =>
    match hexCharVal c1, hexCharVal c2 with
    | some h, some l => (16 * h + l) :: hexPairsToBytes rest
    | _, _ => []
  | _ => []

/-- `Buffer.from(s, 'hex')` as a byte list. -/
def hexToBytes (s : String) : List Nat := hexPairsToBytes s.toList

/-- `crypto.timingSafeEqual`: throws a `RangeError` when the buffers have
different lengths, otherwise compares them for equality. -/
def timingSafeEqual (a b : List Nat) : Except String Bool :=
  if a.length = b.length then .ok (decide (a = b))
  else .error "Input buffers must have the same byte length"

/-- `hashWithSaltSHA256` from the source: fast hash of salt concatenated with
the code; the SHA-256 hex digest itself is the parameter `sha256hex`. -/
def hashWithSaltSHA256 (sha256hex : String → String) (code salt : String) : String :=
  sha256hex (salt ++ code)

/-- The stored strong-hash value a row offers:
`cleanValue(row.PasswordHash || row.ScryptHash)`. -/
def storedScryptHash (row : Row) : String :=
  cleanValue (jsOr (row "PasswordHash") (row "ScryptHash"))

/-- `verifyPassword` from the source. `scrypt code salt` is the byte list
`crypto.scryptSync(code, salt, 64)`; `sha256hex` is the SHA-256 hex digest.
The result is `Except` because `timingSafeEqual` can throw. -/
def verifyPassword (scrypt : String → String → List Nat) (sha256hex : String → String)
    (allowLegacySha : Bool) (row : Row) (code : String) : Except String Bool :=
  let scryptHash := storedScryptHash row
  let salt := cleanValue (row "Salt")
  if scryptHash ≠ "" ∧ salt ≠ "" then
    timingSafeEqual (hexToBytes (toHex (scrypt code salt))) (hexToBytes scryptHash)
  else if salt ≠ "" ∧ cleanValue (row "Code") ≠ "" then
    .ok (hashWithSaltSHA256 sha256hex code salt == cleanValue (row "Code"))
  else if allowLegacySha ∧ cleanValue (row "Code") ≠ "" then
    .ok (sha256hex code == cleanValue (row "Code"))
  else .ok false

/-- Specification-side verifier keeping only the strong branch: used to state
that on loader-normalized rows the two legacy branches are unreachable. -/
def verifyStrongOnly (scrypt : String → String → List Nat) (row : Row) (code : String) :
    Except String Bool :=
  let scryptHash := storedScryptHash row
  let salt := cleanValue (row "Salt")
  if scryptHash ≠ "" ∧ salt ≠ "" then
    timingSafeEqual (hexToBytes (toHex (scrypt code salt))) (hexToBytes scryptHash)
  else .ok false

/-- The salt derivation in `loadData`:
``cleanValue(row.Salt) || (employeeId ? `emp-${employeeId}` : 'default-salt')``. -/
def saltOf (row : Row) : String :=
  if cleanValue (row "Salt") ≠ "" then cleanValue (row "Salt")
  else if cleanValue (row "EmployeeID") ≠ "" then "emp-" ++ cleanValue (row "EmployeeID")
  else "default-salt"

/-- Normalization of one instructor row inside `loadData`: derive a salt
(explicit, else per-employee fallback, else constant), keep a present strong
hash, else derive one from a legacy `Code` column and delete said column. -/
def normalizeInstructor (scrypt : String → String → List Nat) (row : Row) : Row :=
  let salt := saltOf row
  let passwordHash := storedScryptHash row
  let normalized := updateRow row "Salt" (some salt)
  if passwordHash ≠ "" then updateRow normalized "PasswordHash" (some passwordHash)
  else
    let codeValue := cleanValue (row "Code")
    if codeValue ≠ "" then
      updateRow (updateRow normalized "PasswordHash" (some (toHex (scrypt codeValue salt))))
        "Code" none
    else normalized

/-- One note of a program rule. -/
structure Note where
  type : String
  text : String
deriving DecidableEq

/-- Program rules: normalized program key and meeting number to the ordered
note list, `none` when the pair was never assigned. -/
def ProgramRules : Type := String → Int → Option (List Note)

def emptyRules : ProgramRules := fun _ _ => none

/-- `programRules[key][num] = notes`. -/
def setRule (rules : ProgramRules) (k : String) (n : Int) (notes : List Note) : ProgramRules :=
  fun q m => if q = k ∧ m = n then some notes else rules q m

/-- Array cell access `row[i]` (undefined past the end). -/
def jsIndex (row : List (Option String)) (i : Nat) : Option String :=
  (row.get? i).bind id

/-- The inner note loop of `loadData`: trailing columns from index 2 onwards
are consumed in (type, text) pairs; a pair contributes a note only when both
members are non-empty after trimming. -/
def pairNotes : List (Option String) → List Note
  | t :: x :: rest =>
    (if cleanValue t ≠ "" ∧ cleanValue x ≠ "" then [⟨cleanValue t, cleanValue x⟩] else [])
      ++ pairNotes rest
  | _ => []

/-- Processing of one program-rule row: skip unless the normalized program key
is non-empty and the meeting-number cell converts to a finite number
(`toNum`, modelling JavaScript `Number(...)` with `none` for non-finite). -/
def ruleStep (toNum : Option String → Option Int) (rules : ProgramRules)
    (row : List (Option String)) : ProgramRules :=
  let programKey := normalizeProgramName (jsIndex row 0)
  match toNum (jsIndex row 1) with
  | some meetingNum =>
    if programKey ≠ "" then setRule rules programKey meetingNum (pairNotes (row.drop 2))
    else rules
  | none => rules

/-- The program-rule table build in `loadData`: the first (header) row is
skipped, the remaining rows are processed in order. -/
def buildProgramRules (toNum : Option String → Option Int)
    (rows : List (List (Option String))) : ProgramRules :=
  (rows.drop 1).foldl (ruleStep toNum) emptyRules

/-- One global message. -/
structure GlobalMessage where
  message : String
  type : String
deriving DecidableEq

/-- The global-message build in `loadData`: drop rows with empty message,
default the type to Info. -/
def buildGlobalMessages (rows : List Row) : List GlobalMessage :=
  (rows.filter (fun r => cleanValue (r "Message") ≠ "")).map (fun r =>
    { message := cleanValue (r "Message")
      type := if cleanValue (r "Type") ≠ "" then cleanValue (r "Type") else "Info" })

/-- The in-memory data snapshot (`dataStore`). -/
structure DataStore where
  instructors : List Row
  programRules : ProgramRules
  globalMessages : List GlobalMessage

/-- `loadData` from the source, with the three `parseXlsx` results as inputs
(`.error` models a throwing parse). The snapshot value is produced only after
all three tables have parsed, mirroring the single final assignment. -/
def loadData (scrypt : String → String → List Nat) (toNum : Option String → Option Int)
    (instrRes : Except String (List Row))
    (progRes : Except String (List (List (Option String))))
    (globRes : Except String (List Row)) : Except String DataStore :=
  match instrRes with
  | .error e => .error e
  | .ok instructorRows =>
    let instructors := instructorRows.map (normalizeInstructor scrypt)
    match progRes with
    | .error e => .error e
    | .ok programRows =>
      match globRes with
      | .error e => .error e
      | .ok globalRows =>
        .ok { instructors := instructors
              programRules := buildProgramRules toNum programRows
              globalMessages := buildGlobalMessages globalRows }

/-- One tick of the periodic reload timer: `loadData().catch(() => {})` —
a throwing reload leaves the previous snapshot in place. -/
def reloadTick (scrypt : String → String → List Nat) (toNum : Option String → Option Int)
    (prev : DataStore) (instrRes : Except String (List Row))
    (progRes : Except String (List (List (Option String))))
    (globRes : Except String (List Row)) : DataStore :=
  match loadData scrypt toNum instrRes progRes globRes with
  | .ok s => s
  | .error _ => prev

/-- A stored session. -/
structure Session where
  employeeId : String
  employeeName : String
  expiresAt : Nat
deriving DecidableEq

/-- The session `Map`, token to session. -/
def SessionMap : Type := String → Option Session

def emptySessions : SessionMap := fun _ => none

def setSession (m : SessionMap) (t : String) (s : Session) : SessionMap :=
  fun q => if q = t then some s else m q

def delSession (m : SessionMap) (t : String) : SessionMap :=
  fun q => if q = t then none else m q

/-- `SESSION_TTL_MS = 1000 * 60 * 60 * 8`. -/
def SESSION_TTL_MS : Nat := 28800000

/-- `createSession` from the source; the random token is the parameter. -/
def createSession (m : SessionMap) (token : String) (now : Nat)
    (employeeId employeeName : String) : SessionMap :=
  setSession m token
    { employeeId := employeeId, employeeName := employeeName
      expiresAt := now + SESSION_TTL_MS }

/-- Token extraction from the Authorization header in `getSession`:
`auth.startsWith('Bearer ') ? auth.slice(7) : ''`, on the character list of
the header value. -/
def bearerToken (authHeader : Option String) : String :=
  let auth := (authHeader.getD "").toList
  if auth.take 7 = "Bearer ".toList then (auth.drop 7).asString else ""

/-- `getSession` from the source: resolve the bearer token against the map at
instant `now`, lazily deleting an entry with `expiresAt < now`. Returns the
resolution result and the possibly-updated map. -/
def getSession (m : SessionMap) (authHeader : Option String) (now : Nat) :
    Option (String × Session) × SessionMap :=
  let token := bearerToken authHeader
  match m token with
  | none => (none, m)
  | some s => if s.expiresAt < now then (none, delSession m token) else (some (token, s), m)

/-- An activity materialized from one field-group of an instructor row. -/
structure Activity where
  date : String
  program : String
  programKey : String
  startTime : Option String
  endTime : Option String
  manager : String
  school : String
  className : String
  authority : String
  meetingNumber : Nat
deriving DecidableEq

/-- ``row[`X${i}`] || (i === 1 ? row.X : undefined)`` (Date and Cancel). -/
def groupField (row : Row) (base : String) (i : Nat) : Option String :=
  jsOr (row (base ++ toString i)) (if i = 1 then row base else none)

/-- ``row[`X${i}`] || (i === 1 ? row.X : '')`` (the remaining fields). -/
def groupFieldStr (row : Row) (base : String) (i : Nat) : Option String :=
  jsOr (row (base ++ toString i)) (if i = 1 then row base else some "")

def groupDate (row : Row) (i : Nat) : Option String := groupField row "Date" i

def groupCancel (row : Row) (i : Nat) : Option String := groupField row "Cancel" i

/-- A field-group yields an activity attempt: date present, not cancelled. -/
def groupActive (row : Row) (i : Nat) : Bool :=
  hasValue (groupDate row i) && !(hasValue (groupCancel row i))

/-- The date of the field-group parses (`pd` models
`new Date(v).toISOString()`, `none` = Invalid Date, which throws). -/
def groupParses (pd : String → Option String) (row : Row) (i : Nat) : Bool :=
  (pd ((groupDate row i).getD "")).isSome

/-- A field-group is emitted: active and with a parseable date. -/
def groupEmits (pd : String → Option String) (row : Row) (i : Nat) : Bool :=
  groupActive row i && groupParses pd row i

/-- The activity pushed for field-group `i` with ISO date string `iso`. -/
def mkActivity (row : Row) (i : Nat) (iso : String) : Activity :=
  { date := iso
    program := cleanValue (groupFieldStr row "Program" i)
    programKey := normalizeProgramName (some (cleanValue (groupFieldStr row "Program" i)))
    startTime := groupFieldStr row "StartTime" i
    endTime := groupFieldStr row "EndTime" i
    manager := cleanValue (groupFieldStr row "Manager" i)
    school := cleanValue (groupFieldStr row "School" i)
    className := cleanValue (groupFieldStr row "Class" i)
    authority := cleanValue (groupFieldStr row "Authority" i)
    meetingNumber := i }

/-- The activity a field-group contributes when it is emitted (its parsed
date is then `some`, so the default is never used). -/
def emitActivity (pd : String → Option String) (row : Row) (i : Nat) : Activity :=
  mkActivity row i ((pd ((groupDate row i).getD "")).getD "")

/-- The extraction loop of `extractActivities` over a list of indices. -/
def extractFrom (pd : String → Option String) (row : Row) : List Nat → Except String (List Activity)
  | [] => .ok []
  | i :: rest =>
    if groupActive row i then
      match pd ((groupDate row i).getD "") with
      | none => .error "Invalid time value"
      | some iso =>
        match extractFrom pd row rest with
        | .error e => .error e
        | .ok acts => .ok (mkActivity row i iso :: acts)
    else extractFrom pd row rest

/-- `extractActivities` from the source: field-group indices 1..16. -/
def extractActivities (pd : String → Option String) (row : Row) :
    Except String (List Activity) :=
  extractFrom pd row (List.range' 1 16)

/-- Response of the login route. -/
inductive LoginResponse where
  | badRequest
  | unauthorized
  | okResp (token : String) (employeeName : String)
  | serverError (detail : String)
deriving DecidableEq

def LoginResponse.status : LoginResponse → Nat
  | .badRequest => 400
  | .unauthorized => 401
  | .okResp _ _ => 200
  | .serverError _ => 500

/-- The instructor lookup used by the handlers:
`dataStore.instructors.find(item => cleanValue(item.EmployeeID) === id)`. -/
def findInstructor (store : DataStore) (id : String) : Option Row :=
  store.instructors.find? (fun item => cleanValue (item "EmployeeID") == id)

/-- The `POST /api/login` handler, wrapped in the server's catch handler
(`.serverError` = the 500 response for a thrown verification). `mint` is the
fresh random token. Returns the response and the updated session map. -/
def loginHandler (scrypt : String → String → List Nat) (sha256hex : String → String)
    (allowLegacySha : Bool) (store : DataStore) (m : SessionMap) (mint : String) (now : Nat)
    (bodyEmployeeId bodyCode : Option String) : LoginResponse × SessionMap :=
  let employeeId := cleanValue bodyEmployeeId
  let code := cleanValue bodyCode
  if employeeId = "" ∨ code = "" then (.badRequest, m)
  else
    match findInstructor store employeeId with
    | none => (.unauthorized, m)
    | some row =>
      match verifyPassword scrypt sha256hex allowLegacySha row code with
      | .error e => (.serverError e, m)
      | .ok false => (.unauthorized, m)
      | .ok true =>
        (.okResp mint (cleanValue (row "Employee")),
         createSession m mint now employeeId (cleanValue (row "Employee")))

/-- Response of the schedule route. -/
inductive ScheduleResponse where
  | unauthorized
  | notFound
  | okResp (employeeName : String) (activities : List Activity)
  | serverError (detail : String)
deriving DecidableEq

def ScheduleResponse.status : ScheduleResponse → Nat
  | .unauthorized => 401
  | .notFound => 404
  | .okResp _ _ => 200
  | .serverError _ => 500

/-- The `GET /api/me/schedule` handler, wrapped in the server's catch handler
(a throwing `extractActivities` becomes the 500 response). -/
def scheduleHandler (pd : String → Option String) (store : DataStore) (m : SessionMap)
    (authHeader : Option String) (now : Nat) : ScheduleResponse × SessionMap :=
  match getSession m authHeader now with
  | (none, m2) => (.unauthorized, m2)
  | (some (_, sess), m2) =>
    match findInstructor store sess.employeeId with
    | none => (.notFound, m2)
    | some row =>
      match extractActivities pd row with
      | .error e => (.serverError e, m2)
      | .ok acts => (.okResp (cleanValue (row "Employee")) acts, m2)

/-- Flip bit `j` of byte `i` of a byte list. -/
def flipBit (bs : List Nat) (i j : Nat) : List Nat :=
  bs.set i (Nat.xor (bs.getD i 0) (2 ^ j))

/-- Non-overlapping (first, second) pairs of a list, used to state the
note-pairing property of program-rule rows. -/
def chunkPairs {α : Type} : List α → List (α × α)
  | a :: b :: rest => (a, b) :: chunkPairs rest
  | _ => []

/-! Concrete fixtures, used to evaluate the embedded operations. -/

/-- A concrete stand-in for `crypto.scryptSync(.,.,64)`: 64 bytes. -/
def demoScrypt : String → String → List Nat := fun _ _ => List.replicate 64 171

/-- A record holding exactly the strong hash `demoScrypt` produces. -/
def demoRow : Row := fun k =>
  if k = "PasswordHash" then some (toHex (List.replicate 64 171))
  else if k = "Salt" then some "pepper" else none

/-- A concrete stand-in for `new Date(v).toISOString()` that accepts exactly
one date literal; every other input is an Invalid Date. -/
def demoDateParse : String → Option String :=
  fun s => if s = "2024-01-02" then some "2024-01-02T00:00:00.000Z" else none

/-- A record whose first field-group has a present but unparseable date. -/
def rowBadDate : Row := fun k =>
  if k = "EmployeeID" then some "1001"
  else if k = "Date1" then some "not-a-date" else none

/-- A record whose first field-group has a present, parseable date. -/
def rowGoodDate : Row := fun k => if k = "Date1" then some "2024-01-02" else none

def storeBadDate : DataStore :=
  { instructors := [rowBadDate], programRules := emptyRules, globalMessages := [] }

/-- A record whose stored strong hash decodes to one byte, not 64. -/
def rowBadHash : Row := fun k =>
  if k = "EmployeeID" then some "1001"
  else if k = "PasswordHash" then some "abc"
  else if k = "Salt" then some "s1" else none

def storeBadHash : DataStore :=
  { instructors := [rowBadHash], programRules := emptyRules, globalMessages := [] }

/-- A record on which `demoScrypt` verification succeeds. -/
def rowGoodLogin : Row := fun k =>
  if k = "EmployeeID" then some "1001"
  else if k = "Employee" then some "Alice"
  else if k = "PasswordHash" then some (toHex (List.replicate 64 171))
  else if k = "Salt" then some "pepper" else none

def storeGoodLogin : DataStore :=
  { instructors := [rowGoodLogin], programRules := emptyRules, globalMessages := [] }

/-- A credential-free record with employee id 1001. -/
def rowDupId : Row := fun k => if k = "EmployeeID" then some "1001" else none

/-- A concrete stand-in for the JavaScript `Number(...)` conversion. -/
def demoToNum : Option String → Option Int :=
  fun v => if cleanValue v = "3" then some 3 else if cleanValue v = "4" then some 4 else none

/-- The snapshot a reload builds from a source table containing the same
employee id twice. -/
def storeDup : DataStore :=
  { instructors := [rowDupId, rowDupId].map (normalizeInstructor demoScrypt)
    programRules := buildProgramRules demoToNum []
    globalMessages := buildGlobalMessages [] }

/-! Helper lemmas about trimming. -/

theorem dropWhile_head_false {α : Type} (p : α → Bool) :
    ∀ (l : List α) {c : α} {t : List α}, l.dropWhile p = c :: t → p c = false
  | [], _, _, h => by simp [List.dropWhile] at h
  | a :: l, c, t, h => by
    rw [List.dropWhile_cons] at h
    by_cases ha : p a = true
    · rw [if_pos ha] at h
      exact dropWhile_head_false p l h
    · rw [if_neg ha] at h
      cases h
      exact Bool.eq_false_iff.mpr ha

theorem trimChars_nil_all_ws {l : List Char} (h : trimChars l = []) :
    ∀ c ∈ l, cWs c = true := by
  unfold trimChars at h
  rw [List.reverse_eq_nil_iff, List.dropWhile_eq_nil_iff] at h
  intro c hc
  rcases List.mem_append.mp ((List.takeWhile_append_dropWhile cWs l) ▸ hc) with h1 | h1
  · exact List.mem_takeWhile_imp h1
  · exact h c (List.mem_reverse.mpr h1)

theorem trimChars_ne_nil {l : List Char} {c : Char} (hc : c ∈ l) (hw : cWs c = false) :
    trimChars l ≠ [] := by
  intro h
  rw [trimChars_nil_all_ws h c hc] at hw
  cases hw

theorem trimChars_has_non_ws {l : List Char} (h : trimChars l ≠ []) :
    ∃ c ∈ trimChars l, cWs c = false := by
  unfold trimChars at h ⊢
  rcases hd : (l.dropWhile cWs).reverse.dropWhile cWs with _ | ⟨c, t⟩
  · rw [hd] at h
    simp at h
  · exact ⟨c, by simp, dropWhile_head_false cWs _ hd⟩

theorem asString_eq_empty_iff (l : List Char) : l.asString = "" ↔ l = [] := by
  constructor
  · intro h
    have : (List.asString l).data = ("" : String).data := by rw [h]
    simpa [List.asString] using this
  · intro h
    rw [h]
    rfl

theorem toList_asString (l : List Char) : (l.asString).toList = l := rfl

theorem jsTrim_ne_empty {s : String} {c : Char} (hc : c ∈ s.toList) (hw : cWs c = false) :
    jsTrim s ≠ "" := by
  unfold jsTrim
  rw [Ne, asString_eq_empty_iff]
  exact trimChars_ne_nil hc hw

theorem jsTrim_jsTrim_ne {s : String} (h : jsTrim s ≠ "") : jsTrim (jsTrim s) ≠ "" := by
  have h2 : trimChars s.toList ≠ [] := by
    intro hn
    exact h (by unfold jsTrim; rw [hn]; rfl)
  rcases trimChars_has_non_ws h2 with ⟨c, hc, hw⟩
  exact jsTrim_ne_empty (s := jsTrim s) (by rw [jsTrim, toList_asString]; exact hc) hw

theorem cleanValue_idem_ne {v : Option String} (h : cleanValue v ≠ "") :
    cleanValue (some (cleanValue v)) ≠ "" := by
  unfold cleanValue at h ⊢
  exact jsTrim_jsTrim_ne h

/-! Helper lemmas about hex encoding and decoding. -/

theorem hexCharVal_hexDigitChar_fin :
    ∀ d : Fin 16, hexCharVal (hexDigitChar d.val) = some d.val := by decide

theorem cWs_hexDigitChar_fin : ∀ d : Fin 16, cWs (hexDigitChar d.val) = false := by decide

theorem hexCharVal_hexDigitChar {n : Nat} (h : n < 16) :
    hexCharVal (hexDigitChar n) = some n := hexCharVal_hexDigitChar_fin ⟨n, h⟩

theorem cWs_hexDigitChar {n : Nat} (h : n < 16) : cWs (hexDigitChar n) = false :=
  cWs_hexDigitChar_fin ⟨n, h⟩

theorem hexPairs_toHexChars :
    ∀ (bs : List Nat), (∀ b ∈ bs, b < 256) → hexPairsToBytes (toHexChars bs) = bs
  | [], _ => rfl
  | b :: bs, h => by
    have hb : b < 256 := h b (by simp)
    have h1 : b / 16 < 16 := by omega
    have h2 : b % 16 < 16 := by omega
    have ih := hexPairs_toHexChars bs (fun x hx => h x (by simp [hx]))
    simp only [toHexChars, hexPairsToBytes, hexCharVal_hexDigitChar h1,
      hexCharVal_hexDigitChar h2, ih]
    have hdm : 16 * (b / 16) + b % 16 = b := by omega
    rw [hdm]

theorem hexToBytes_toHex {bs : List Nat} (h : ∀ b ∈ bs, b < 256) :
    hexToBytes (toHex bs) = bs := by
  unfold hexToBytes toHex
  rw [toList_asString]
  exact hexPairs_toHexChars bs h

theorem toHex_ne_empty {bs : List Nat} (h : bs ≠ []) : toHex bs ≠ "" := by
  rcases bs with _ | ⟨b, t⟩
  · exact absurd rfl h
  · unfold toHex toHexChars
    rw [Ne, asString_eq_empty_iff]
    simp

theorem jsTrim_toHex_ne_empty {bs : List Nat} (hne : bs ≠ []) (h : ∀ b ∈ bs, b < 256) :
    jsTrim (toHex bs) ≠ "" := by
  rcases bs with _ | ⟨b, t⟩
  · exact absurd rfl hne
  · have hb : b < 256 := h b (by simp)
    refine jsTrim_ne_empty (c := hexDigitChar (b / 16)) ?_ (cWs_hexDigitChar (by omega))
    rw [toHex, toList_asString, toHexChars]
    simp

/-! Helper lemmas about lists and bit flips. -/

theorem countP_key :
    ∀ {l : List Nat}, l.Nodup → ∀ (i : Nat) (f : Nat → Bool),
      l.countP (fun j => (j == i) && f j) = if i ∈ l ∧ f i = true then 1 else 0
  | [], _, i, f => by simp
  | a :: t, hnd, i, f => by
    have hat : a ∉ t := (List.nodup_cons.mp hnd).1
    have ih := countP_key (List.nodup_cons.mp hnd).2 i f
    rw [List.countP_cons, ih]
    by_cases hai : a = i
    · subst hai
      have hnotin : ¬(a ∈ t ∧ f a = true) := fun hc => hat hc.1
      rw [if_neg hnotin]
      by_cases hf : f a = true <;> simp [hf]
    · have hfalse : ((a == i) && f a) = false := by
        simp [hai]
      rw [hfalse]
      simp [hai, Ne.symm hai]

theorem getD_set_self {l : List Nat} {i x : Nat} (h : i < l.length) :
    (l.set i x).getD i 0 = x := by
  rw [List.getD_eq_getElem?_getD, List.getElem?_set_self h]
  rfl

theorem flipBit_ne {bs : List Nat} {i j : Nat} (h : i < bs.length) : flipBit bs i j ≠ bs := by
  intro he
  have h1 : (flipBit bs i j).getD i 0 = bs.getD i 0 ^^^ 2 ^ j := getD_set_self h
  rw [he] at h1
  have h2 : bs.getD i 0 ^^^ bs.getD i 0 = bs.getD i 0 ^^^ (bs.getD i 0 ^^^ 2 ^ j) :=
    congrArg (fun z => bs.getD i 0 ^^^ z) h1
  rw [Nat.xor_self, Nat.xor_cancel_left] at h2
  exact absurd h2.symm (Nat.pos_iff_ne_zero.mp (Nat.two_pow_pos j))

/-! Helper lemmas about the instructor-row normalization. -/

theorem jsTrim_saltOf (row : Row) : jsTrim (saltOf row) ≠ "" := by
  unfold saltOf
  by_cases h1 : cleanValue (row "Salt") ≠ ""
  · rw [if_pos h1]
    exact jsTrim_jsTrim_ne h1
  · rw [if_neg h1]
    by_cases h2 : cleanValue (row "EmployeeID") ≠ ""
    · rw [if_pos h2]
      refine jsTrim_ne_empty (c := 'e') ?_ (by decide)
      have hmem : 'e' ∈ ("emp-" : String).toList := by decide
      show 'e' ∈ ("emp-" ++ cleanValue (row "EmployeeID")).data
      rw [String.data_append]
      exact List.mem_append.mpr (Or.inl hmem)
    · rw [if_neg h2]
      decide

theorem normalizeInstructor_Salt (scrypt : String → String → List Nat) (row : Row) :
    normalizeInstructor scrypt row "Salt" = some (saltOf row) := by
  unfold normalizeInstructor
  by_cases hp : storedScryptHash row ≠ ""
  · simp [hp, updateRow]
  · by_cases hc : cleanValue (row "Code") ≠ "" <;> simp [hp, hc, updateRow]

theorem normalizeInstructor_keeps (scrypt : String → String → List Nat) (row : Row)
    (k : String) (h1 : k ≠ "Salt") (h2 : k ≠ "PasswordHash") (h3 : k ≠ "Code") :
    normalizeInstructor scrypt row k = row k := by
  unfold normalizeInstructor
  by_cases hp : storedScryptHash row ≠ "" <;>
    by_cases hc : cleanValue (row "Code") ≠ "" <;>
      simp [hp, hc, updateRow, h1, h2, h3]

theorem normalizeInstructor_strong (scrypt : String → String → List Nat) (row : Row)
    (hp : storedScryptHash row ≠ "") :
    normalizeInstructor scrypt row "PasswordHash" = some (storedScryptHash row) ∧
    normalizeInstructor scrypt row "ScryptHash" = row "ScryptHash" ∧
    normalizeInstructor scrypt row "Code" = row "Code" := by
  unfold normalizeInstructor
  simp [hp, updateRow]

theorem normalizeInstructor_fromCode (scrypt : String → String → List Nat) (row : Row)
    (hp : storedScryptHash row = "") (hc : cleanValue (row "Code") ≠ "") :
    normalizeInstructor scrypt row "PasswordHash" =
      some (toHex (scrypt (cleanValue (row "Code")) (saltOf row))) ∧
    normalizeInstructor scrypt row "Code" = none := by
  unfold normalizeInstructor
  simp [hp, hc, updateRow]

theorem normalizeInstructor_bare (scrypt : String → String → List Nat) (row : Row)
    (hp : storedScryptHash row = "") (hc : cleanValue (row "Code") = "") :
    normalizeInstructor scrypt row "PasswordHash" = row "PasswordHash" ∧
    normalizeInstructor scrypt row "ScryptHash" = row "ScryptHash" ∧
    normalizeInstructor scrypt row "Code" = row "Code" := by
  unfold normalizeInstructor
  simp [hp, hc, updateRow]

/-! Helper lemmas about the password verifier. -/

theorem verifyPassword_strong_branch (scrypt : String → String → List Nat)
    (sha256hex : String → String) (legacy : Bool) (row : Row) (code : String)
    (hh : storedScryptHash row ≠ "") (hs : cleanValue (row "Salt") ≠ "") :
    verifyPassword scrypt sha256hex legacy row code =
      timingSafeEqual (hexToBytes (toHex (scrypt code (cleanValue (row "Salt")))))
        (hexToBytes (storedScryptHash row)) := by
  unfold verifyPassword
  simp [hh, hs]

theorem verifyStrongOnly_branch (scrypt : String → String → List Nat) (row : Row) (code : String)
    (hh : storedScryptHash row ≠ "") (hs : cleanValue (row "Salt") ≠ "") :
    verifyStrongOnly scrypt row code =
      timingSafeEqual (hexToBytes (toHex (scrypt code (cleanValue (row "Salt")))))
        (hexToBytes (storedScryptHash row)) := by
  unfold verifyStrongOnly
  simp [hh, hs]

/-! Helper lemmas about activity extraction. -/

theorem extractFrom_ok_of (pd : String → Option String) (row : Row) :
    ∀ (is : List Nat), (∀ i ∈ is, groupActive row i = true → groupParses pd row i = true) →
      extractFrom pd row is = .ok ((is.filter (groupEmits pd row)).map (emitActivity pd row))
  | [], _ => rfl
  | i :: rest, h => by
    have ih := extractFrom_ok_of pd row rest (fun j hj => h j (by simp [hj]))
    rw [extractFrom]
    by_cases ha : groupActive row i = true
    · have hp : groupParses pd row i = true := h i (by simp) ha
      rcases hpd : pd ((groupDate row i).getD "") with _ | iso
      · rw [groupParses, hpd] at hp
        cases hp
      · have he : groupEmits pd row i = true := by
          simp [groupEmits, ha, hp]
        rw [if_pos ha, ih, List.filter_cons, if_pos he]
        simp [emitActivity, hpd]
    · have he : groupEmits pd row i = false := by
        rw [groupEmits, Bool.eq_false_iff.mpr ha]
        rfl
      rw [if_neg ha, ih, List.filter_cons, he]
      simp

theorem extractFrom_ok_parses (pd : String → Option String) (row : Row) :
    ∀ (is : List Nat) (acts : List Activity), extractFrom pd row is = .ok acts →
      ∀ i ∈ is, groupActive row i = true → groupParses pd row i = true
  | [], _, _, i, hi, _ => absurd hi (by simp)
  | k :: rest, acts, h, i, hi, ha => by
    rw [extractFrom] at h
    by_cases hk : groupActive row k = true
    · rw [if_pos hk] at h
      rcases hpd : pd ((groupDate row k).getD "") with _ | iso
      · rw [hpd] at h
        cases h
      · rw [hpd] at h
        rcases hrest : extractFrom pd row rest with e | acts2
        · rw [hrest] at h
          cases h
        · rcases List.mem_cons.mp hi with hik | hit
          · subst hik
            rw [groupParses, hpd]
            rfl
          · exact extractFrom_ok_parses pd row rest acts2 hrest i hit ha
    · rw [if_neg hk] at h
      rcases List.mem_cons.mp hi with hik | hit
      · subst hik
        exact absurd ha hk
      · exact extractFrom_ok_parses pd row rest acts h i hit ha

theorem extractFrom_ok_eq {pd : String → Option String} {row : Row} {is : List Nat}
    {acts : List Activity} (h : extractFrom pd row is = .ok acts) :
    acts = (is.filter (groupEmits pd row)).map (emitActivity pd row) := by
  have h2 := extractFrom_ok_of pd row is (extractFrom_ok_parses pd row is acts h)
  rw [h] at h2
  exact Except.ok.inj h2

/-! Helper lemma about program-rule note pairing. -/

theorem pairNotes_eq_chunk :
    ∀ (cells : List (Option String)), pairNotes cells =
      (chunkPairs cells).filterMap (fun p =>
        if cleanValue p.1 ≠ "" ∧ cleanValue p.2 ≠ "" then
          some ⟨cleanValue p.1, cleanValue p.2⟩ else none)
  | [] => rfl
  | [_] => rfl
  | t :: x :: rest => by
    rw [pairNotes, chunkPairs, List.filterMap_cons, pairNotes_eq_chunk rest]
    by_cases h : cleanValue t ≠ "" ∧ cleanValue x ≠ "" <;> simp [h]

/-! The claims. -/

/-- C1: for a record storing strong credential material — a stored strong hash
that is the hex encoding of a 64-byte value `bs`, with a non-empty salt —
verification of a submitted code succeeds exactly when the scrypt derivation
of the code with that salt equals the stored bytes; in particular, whenever
the stored bytes differ from the correct derivation in a single bit,
verification returns false. -/
theorem claim_C1_strong_hash_verification (scrypt : String → String → List Nat)
    (sha256hex : String → String) (legacy : Bool) (row : Row) (code : String) (bs : List Nat)
    (hdlen : (scrypt code (cleanValue (row "Salt"))).length = 64)
    (hdbytes : ∀ b ∈ scrypt code (cleanValue (row "Salt")), b < 256)
    (hstored : storedScryptHash row = toHex bs)
    (hblen : bs.length = 64)
    (hbbytes : ∀ b ∈ bs, b < 256)
    (hsalt : cleanValue (row "Salt") ≠ "") :
    (verifyPassword scrypt sha256hex legacy row code = .ok true ↔
      scrypt code (cleanValue (row "Salt")) = bs) ∧
    (∀ i j : Nat, i < 64 → j < 8 →
      bs = flipBit (scrypt code (cleanValue (row "Salt"))) i j →
      verifyPassword scrypt sha256hex legacy row code = .ok false) := by
  have hbs_ne : bs ≠ [] := by
    intro h
    rw [h] at hblen
    cases hblen
  have hne : storedScryptHash row ≠ "" := by
    rw [hstored]
    exact toHex_ne_empty hbs_ne
  have heval : verifyPassword scrypt sha256hex legacy row code =
      .ok (decide (scrypt code (cleanValue (row "Salt")) = bs)) := by
    rw [verifyPassword_strong_branch scrypt sha256hex legacy row code hne hsalt, hstored,
      hexToBytes_toHex hdbytes, hexToBytes_toHex hbbytes, timingSafeEqual,
      if_pos (by rw [hdlen, hblen])]
  constructor
  · rw [heval]
    constructor
    · intro h
      exact of_decide_eq_true (Except.ok.inj h)
    · intro h
      rw [decide_eq_true h]
  · intro i j hi hj hflip
    rw [heval]
    have hne2 : scrypt code (cleanValue (row "Salt")) ≠ bs := by
      rw [hflip]
      exact fun hcontra => flipBit_ne (by rw [hdlen]; exact hi) hcontra.symm
    rw [decide_eq_false hne2]

/-- C1 witness: a concrete record whose stored hash is exactly the derivation
the concrete scrypt produces, so verification succeeds. -/
theorem claim_C1_witness :
    verifyPassword demoScrypt (fun _ => "") false demoRow "1234" = .ok true :=
  (claim_C1_strong_hash_verification demoScrypt (fun _ => "") false demoRow "1234"
    (List.replicate 64 171) (by decide) (by decide) (by decide) (by decide) (by decide)
    (by decide)).1.mpr (by decide)

/-- C2: one reload tick leaves the snapshot exactly as it was whenever any of
the three spreadsheet parses throws, and replaces it with the freshly built
snapshot only when all three parse successfully. -/
theorem claim_C2_reload_atomic (scrypt : String → String → List Nat)
    (toNum : Option String → Option Int) (prev : DataStore)
    (instrRes : Except String (List Row))
    (progRes : Except String (List (List (Option String))))
    (globRes : Except String (List Row)) :
    ((instrRes.isOk = false ∨ progRes.isOk = false ∨ globRes.isOk = false) →
      reloadTick scrypt toNum prev instrRes progRes globRes = prev) ∧
    (∀ irows prows grows, instrRes = .ok irows → progRes = .ok prows → globRes = .ok grows →
      reloadTick scrypt toNum prev instrRes progRes globRes =
        { instructors := irows.map (normalizeInstructor scrypt)
          programRules := buildProgramRules toNum prows
          globalMessages := buildGlobalMessages grows }) := by
  constructor
  · intro h
    rcases instrRes with e | irows
    · rfl
    rcases progRes with e | prows
    · rfl
    rcases globRes with e | grows
    · rfl
    · simp [Except.isOk, Except.toBool] at h
  · intro irows prows grows h1 h2 h3
    subst h1
    subst h2
    subst h3
    rfl

/-- C2 witness: a failing program-rule parse leaves a concrete snapshot
untouched. -/
theorem claim_C2_witness :
    reloadTick demoScrypt demoToNum
      { instructors := [demoRow], programRules := emptyRules, globalMessages := [] }
      (.ok [rowDupId]) (.error "Failed to parse xlsx") (.ok []) =
      { instructors := [demoRow], programRules := emptyRules, globalMessages := [] } :=
  (claim_C2_reload_atomic demoScrypt demoToNum
    { instructors := [demoRow], programRules := emptyRules, globalMessages := [] }
    (.ok [rowDupId]) (.error "Failed to parse xlsx") (.ok [])).1 (Or.inr (Or.inl rfl))

/-- C3 counterexample: resolving a session at exactly its expiry instant
returns the stored session, while the claim demands none for every
`t ≥ expiresAt`. -/
theorem claim_C3_counterexample :
    (getSession (createSession emptySessions "tok" 0 "1001" "Alice")
      (some "Bearer tok") SESSION_TTL_MS).1 =
      some ("tok", { employeeId := "1001", employeeName := "Alice",
                     expiresAt := SESSION_TTL_MS }) := by decide

/-- C3 amended: resolving a stored session strictly after its expiry instant
returns none and deletes the entry; resolving at or before the expiry instant
(the exact expiry instant included) returns the stored session and leaves the
map unchanged. -/
theorem claim_C3_session_expiry (m : SessionMap) (auth : Option String) (now : Nat)
    (s : Session) (hfound : m (bearerToken auth) = some s) :
    (s.expiresAt < now →
      getSession m auth now = (none, delSession m (bearerToken auth))) ∧
    (now ≤ s.expiresAt →
      getSession m auth now = (some (bearerToken auth, s), m)) := by
  have hgs : getSession m auth now =
      (if s.expiresAt < now then (none, delSession m (bearerToken auth))
       else (some (bearerToken auth, s), m)) := by
    simp only [getSession]
    rw [hfound]
  constructor
  · intro h
    rw [hgs, if_pos h]
  · intro h
    rw [hgs, if_neg (by omega)]

/-- C3 witness: a freshly created session still resolves at its exact expiry
instant. -/
theorem claim_C3_witness :
    getSession (createSession emptySessions "tok" 0 "1001" "Alice") (some "Bearer tok")
      SESSION_TTL_MS =
      (some ("tok", { employeeId := "1001", employeeName := "Alice",
                      expiresAt := SESSION_TTL_MS }),
       createSession emptySessions "tok" 0 "1001" "Alice") :=
  (claim_C3_session_expiry (createSession emptySessions "tok" 0 "1001" "Alice")
    (some "Bearer tok") SESSION_TTL_MS
    { employeeId := "1001", employeeName := "Alice", expiresAt := SESSION_TTL_MS }
    (by decide)).2 (by decide)

/-- C4: a record offering no strong hash and no legacy Code value is rejected
for every submitted code, under both values of the legacy flag. -/
theorem claim_C4_no_material_rejects (scrypt : String → String → List Nat)
    (sha256hex : String → String) (legacy : Bool) (row : Row) (code : String)
    (hnohash : storedScryptHash row = "")
    (hnocode : cleanValue (row "Code") = "") :
    verifyPassword scrypt sha256hex legacy row code = .ok false := by
  unfold verifyPassword
  simp [hnohash, hnocode]

/-- C4 witness: the empty record is rejected even with the legacy flag on. -/
theorem claim_C4_witness :
    verifyPassword demoScrypt (fun _ => "") true (fun _ => none) "secret" = .ok false :=
  claim_C4_no_material_rejects demoScrypt (fun _ => "") true (fun _ => none) "secret"
    (by decide) (by decide)

/-- C5 counterexample: a field-group whose date is present and not cancelled
but does not parse makes the whole extraction throw, so no activity at all is
emitted for that index, refuting the unconditional "exactly one Activity". -/
theorem claim_C5_counterexample :
    hasValue (groupDate rowBadDate 1) = true ∧
    hasValue (groupCancel rowBadDate 1) = false ∧
    extractActivities demoDateParse rowBadDate = .error "Invalid time value" :=
  ⟨by decide, by decide, by decide⟩

/-- C5 amended: when extraction succeeds (equivalently, every date of an
active field-group parses — otherwise the extraction throws), then for each
field-group index 1..16 no activity carries that index when its date field is
absent, none when its cancellation field is present (even with a date), and
exactly one when the date is present with no cancellation marker; the output
follows field-group index order, and field-group 1 reads the unsuffixed
column names as fallback (as `groupDate` and `groupCancel` encode). -/
theorem claim_C5_extraction (pd : String → Option String) (row : Row)
    (acts : List Activity) (hok : extractActivities pd row = .ok acts) :
    (∀ i, 1 ≤ i → i ≤ 16 →
      ((hasValue (groupDate row i) = false →
          acts.countP (fun a => a.meetingNumber == i) = 0) ∧
       (hasValue (groupCancel row i) = true →
          acts.countP (fun a => a.meetingNumber == i) = 0) ∧
       (groupActive row i = true →
          acts.countP (fun a => a.meetingNumber == i) = 1))) ∧
    acts.Pairwise (fun a b => a.meetingNumber < b.meetingNumber) := by
  have hacts := extractFrom_ok_eq hok
  have hnd : (List.range' 1 16).Nodup := by decide
  have hcount : ∀ i : Nat, acts.countP (fun a => a.meetingNumber == i) =
      if i ∈ List.range' 1 16 ∧ groupEmits pd row i = true then 1 else 0 := by
    intro i
    rw [hacts, List.countP_map, List.countP_filter]
    exact countP_key hnd i (groupEmits pd row)
  constructor
  · intro i h1 h16
    have hmem : i ∈ List.range' 1 16 := List.mem_range'_1.mpr ⟨h1, by omega⟩
    refine ⟨?_, ?_, ?_⟩
    · intro hd
      have hnem : ¬(i ∈ List.range' 1 16 ∧ groupEmits pd row i = true) := by
        rintro ⟨hm2, hem⟩
        rw [groupEmits, groupActive, hd] at hem
        simp at hem
      rw [hcount i, if_neg hnem]
    · intro hc
      have hnem : ¬(i ∈ List.range' 1 16 ∧ groupEmits pd row i = true) := by
        rintro ⟨hm2, hem⟩
        rw [groupEmits, groupActive, hc] at hem
        simp at hem
      rw [hcount i, if_neg hnem]
    · intro hact
      have hpar : groupParses pd row i = true :=
        extractFrom_ok_parses pd row (List.range' 1 16) acts hok i hmem hact
      rw [hcount i, if_pos ⟨hmem, by simp [groupEmits, hact, hpar]⟩]
  · rw [hacts, List.pairwise_map]
    have hp : (List.range' 1 16).Pairwise (· < ·) := by decide
    exact List.Pairwise.filter _ hp

/-- C5 witness: on a record whose first field-group has a parseable date and
no cancellation, extraction succeeds with exactly one activity for index 1,
in order. -/
theorem claim_C5_witness :
    [mkActivity rowGoodDate 1 "2024-01-02T00:00:00.000Z"].countP
        (fun a => a.meetingNumber == 1) = 1 ∧
    [mkActivity rowGoodDate 1 "2024-01-02T00:00:00.000Z"].Pairwise
        (fun a b => a.meetingNumber < b.meetingNumber) := by
  have h := claim_C5_extraction demoDateParse rowGoodDate
    [mkActivity rowGoodDate 1 "2024-01-02T00:00:00.000Z"] (by decide)
  exact ⟨(h.1 1 (by decide) (by decide)).2.2 (by decide), h.2⟩

/-- C6: the header row never contributes to the built rules; a later row whose
meeting-number cell does not convert to a finite number is skipped without
affecting any other row; a kept row (non-empty normalized key, finite
meeting number) stores exactly the notes of its trailing columns, which are
consumed in (type, text) pairs from column index 2, a pair contributing a
note exactly when both members are non-empty after trimming, in column
order. -/
theorem claim_C6_program_rules (toNum : Option String → Option Int) :
    (∀ r0 r0A rest, buildProgramRules toNum (r0 :: rest) =
      buildProgramRules toNum (r0A :: rest)) ∧
    (∀ r0 rest1 bad rest2, toNum (jsIndex bad 1) = none →
      buildProgramRules toNum (r0 :: (rest1 ++ bad :: rest2)) =
        buildProgramRules toNum (r0 :: (rest1 ++ rest2))) ∧
    (∀ rules row n, normalizeProgramName (jsIndex row 0) ≠ "" →
      toNum (jsIndex row 1) = some n →
      ruleStep toNum rules row =
        setRule rules (normalizeProgramName (jsIndex row 0)) n (pairNotes (row.drop 2))) ∧
    (∀ cells, pairNotes cells =
      (chunkPairs cells).filterMap (fun p =>
        if cleanValue p.1 ≠ "" ∧ cleanValue p.2 ≠ "" then
          some ⟨cleanValue p.1, cleanValue p.2⟩ else none)) := by
  refine ⟨fun r0 r0A rest => rfl, ?_, ?_, pairNotes_eq_chunk⟩
  · intro r0 rest1 bad rest2 hbad
    show List.foldl (ruleStep toNum) emptyRules (rest1 ++ bad :: rest2) =
      List.foldl (ruleStep toNum) emptyRules (rest1 ++ rest2)
    rw [List.foldl_append, List.foldl_append, List.foldl_cons]
    have hskip : ruleStep toNum (List.foldl (ruleStep toNum) emptyRules rest1) bad =
        List.foldl (ruleStep toNum) emptyRules rest1 := by
      unfold ruleStep
      rw [hbad]
    rw [hskip]
  · intro rules row n hkey hnum
    unfold ruleStep
    rw [hnum]
    exact if_pos hkey

/-- C6 witness: removing a concrete malformed row (meeting number does not
convert) leaves the built rules unchanged. -/
theorem claim_C6_witness :
    buildProgramRules demoToNum
      [[some "Program", some "Meeting"],
       [some "Math", some "3", some "Info", some "note"],
       [some "Art", some "bad"],
       [some "Sci", some "4"]] =
    buildProgramRules demoToNum
      [[some "Program", some "Meeting"],
       [some "Math", some "3", some "Info", some "note"],
       [some "Sci", some "4"]] :=
  (claim_C6_program_rules demoToNum).2.1
    [some "Program", some "Meeting"]
    [[some "Math", some "3", some "Info", some "note"]]
    [some "Art", some "bad"]
    [[some "Sci", some "4"]]
    (by decide)

/-- C7 counterexample: a request with non-empty credentials and a matching
record can answer 500 — neither 400, 401 nor 200 — because the stored strong
hash decodes to a different byte length than the scrypt output and the
constant-time comparison throws. -/
theorem claim_C7_counterexample :
    (loginHandler demoScrypt (fun _ => "") false storeBadHash emptySessions "tok" 0
      (some "1001") (some "pw")).1 =
      .serverError "Input buffers must have the same byte length" := by
  decide

/-- C7 amended: empty trimmed credentials answer 400; an unmatched id or a
verification returning false answers 401; a verification returning true
answers 200 with the freshly minted token and the display name (also storing
the session); but when verification throws — the stored strong hash decoding
to a different byte length than the scrypt output — the response is 500. -/
theorem claim_C7_login (scrypt : String → String → List Nat) (sha256hex : String → String)
    (legacy : Bool) (store : DataStore) (m : SessionMap) (mint : String) (now : Nat)
    (bodyEmployeeId bodyCode : Option String) :
    ((cleanValue bodyEmployeeId = "" ∨ cleanValue bodyCode = "") →
      loginHandler scrypt sha256hex legacy store m mint now bodyEmployeeId bodyCode =
        (.badRequest, m) ∧ LoginResponse.badRequest.status = 400) ∧
    (cleanValue bodyEmployeeId ≠ "" → cleanValue bodyCode ≠ "" →
      findInstructor store (cleanValue bodyEmployeeId) = none →
      loginHandler scrypt sha256hex legacy store m mint now bodyEmployeeId bodyCode =
        (.unauthorized, m) ∧ LoginResponse.unauthorized.status = 401) ∧
    (∀ row, cleanValue bodyEmployeeId ≠ "" → cleanValue bodyCode ≠ "" →
      findInstructor store (cleanValue bodyEmployeeId) = some row →
      verifyPassword scrypt sha256hex legacy row (cleanValue bodyCode) = .ok false →
      loginHandler scrypt sha256hex legacy store m mint now bodyEmployeeId bodyCode =
        (.unauthorized, m)) ∧
    (∀ row, cleanValue bodyEmployeeId ≠ "" → cleanValue bodyCode ≠ "" →
      findInstructor store (cleanValue bodyEmployeeId) = some row →
      verifyPassword scrypt sha256hex legacy row (cleanValue bodyCode) = .ok true →
      loginHandler scrypt sha256hex legacy store m mint now bodyEmployeeId bodyCode =
        (.okResp mint (cleanValue (row "Employee")),
          createSession m mint now (cleanValue bodyEmployeeId) (cleanValue (row "Employee"))) ∧
      (LoginResponse.okResp mint (cleanValue (row "Employee"))).status = 200) ∧
    (∀ row e, cleanValue bodyEmployeeId ≠ "" → cleanValue bodyCode ≠ "" →
      findInstructor store (cleanValue bodyEmployeeId) = some row →
      verifyPassword scrypt sha256hex legacy row (cleanValue bodyCode) = .error e →
      loginHandler scrypt sha256hex legacy store m mint now bodyEmployeeId bodyCode =
        (.serverError e, m) ∧ (LoginResponse.serverError e).status = 500) := by
  refine ⟨?_, ?_, ?_, ?_, ?_⟩
  · intro h
    unfold loginHandler
    rw [if_pos h]
    exact ⟨rfl, rfl⟩
  · intro h1 h2 hfind
    unfold loginHandler
    rw [if_neg (not_or.mpr ⟨h1, h2⟩), hfind]
    exact ⟨rfl, rfl⟩
  · intro row h1 h2 hfind hver
    unfold loginHandler
    rw [if_neg (not_or.mpr ⟨h1, h2⟩), hfind]
    dsimp only
    rw [hver]
  · intro row h1 h2 hfind hver
    unfold loginHandler
    rw [if_neg (not_or.mpr ⟨h1, h2⟩), hfind]
    dsimp only
    rw [hver]
    exact ⟨rfl, rfl⟩
  · intro row e h1 h2 hfind hver
    unfold loginHandler
    rw [if_neg (not_or.mpr ⟨h1, h2⟩), hfind]
    dsimp only
    rw [hver]
    exact ⟨rfl, rfl⟩

/-- C7 witness: a concrete successful login answers 200 with the minted token
and the display name and stores the session. -/
theorem claim_C7_witness :
    loginHandler demoScrypt (fun _ => "") false storeGoodLogin emptySessions "tok" 5
      (some "1001") (some "1234") =
      (.okResp "tok" "Alice", createSession emptySessions "tok" 5 "1001" "Alice") :=
  ((claim_C7_login demoScrypt (fun _ => "") false storeGoodLogin emptySessions "tok" 5
    (some "1001") (some "1234")).2.2.2.1 rowGoodLogin (by decide) (by decide) rfl
    (by decide)).1

/-- C8 counterexample: a source table carrying the same employee id twice
produces a snapshot with two instructor records for that id — the loader
does not deduplicate, refuting "exactly one Instructor Record per employee
id". -/
theorem claim_C8_counterexample :
    storeDup.instructors.countP (fun r => cleanValue (r "EmployeeID") == "1001") = 2 := by
  decide

/-- C8 amended: a reload preserves instructor rows one-to-one (for every id
the snapshot holds exactly as many records as the source table has rows with
that trimmed id — so uniqueness holds only when the source table is
duplicate-free), and employee-id lookups are exact string matches after
trimming both sides: a found record's trimmed id equals the trimmed query,
and whenever some record's trimmed id equals the trimmed query the lookup
finds a (first) record. -/
theorem claim_C8_lookup (scrypt : String → String → List Nat)
    (toNum : Option String → Option Int) (irows : List Row)
    (prows : List (List (Option String))) (grows : List Row) (s : DataStore)
    (hok : loadData scrypt toNum (.ok irows) (.ok prows) (.ok grows) = .ok s) :
    (∀ id, s.instructors.countP (fun r => cleanValue (r "EmployeeID") == id) =
      irows.countP (fun r => cleanValue (r "EmployeeID") == id)) ∧
    (∀ qid r, findInstructor s (cleanValue qid) = some r →
      cleanValue (r "EmployeeID") = cleanValue qid) ∧
    (∀ qid, (∃ r ∈ s.instructors, cleanValue (r "EmployeeID") = cleanValue qid) →
      (findInstructor s (cleanValue qid)).isSome = true) := by
  have hs : s = { instructors := irows.map (normalizeInstructor scrypt)
                  programRules := buildProgramRules toNum prows
                  globalMessages := buildGlobalMessages grows } := (Except.ok.inj hok).symm
  refine ⟨?_, ?_, ?_⟩
  · intro id
    rw [hs]
    show (irows.map (normalizeInstructor scrypt)).countP
        (fun r => cleanValue (r "EmployeeID") == id) = _
    rw [List.countP_map]
    refine List.countP_congr ?_
    intro r hr
    show (cleanValue (normalizeInstructor scrypt r "EmployeeID") == id) = true ↔ _
    rw [normalizeInstructor_keeps scrypt r "EmployeeID" (by decide) (by decide) (by decide)]
  · intro qid r hfind
    have hp := List.find?_some hfind
    exact eq_of_beq hp
  · intro qid hex
    rcases hex with ⟨r, hr, hid⟩
    exact List.find?_isSome.mpr ⟨r, hr, beq_iff_eq.mpr hid⟩

/-- C8 witness: on the duplicate-id table the per-id record count of the
snapshot equals the per-id row count of the source. -/
theorem claim_C8_witness :
    storeDup.instructors.countP (fun r => cleanValue (r "EmployeeID") == "1002") =
      [rowDupId, rowDupId].countP (fun r => cleanValue (r "EmployeeID") == "1002") :=
  (claim_C8_lookup demoScrypt demoToNum [rowDupId, rowDupId] [] [] storeDup rfl).1 "1002"

/-- C9: every loader-normalized instructor record has a non-empty (post-trim)
salt, and either offers a non-empty stored strong hash or carries no
non-empty Code value; consequently, on such records the verifier agrees with
the strong-branch-only verifier — the two legacy branches are unreachable —
for every submitted code and both values of the legacy flag. -/
theorem claim_C9_normalized_strong_only (scrypt : String → String → List Nat)
    (hlen : ∀ c s, (scrypt c s).length = 64)
    (hbytes : ∀ c s, ∀ b ∈ scrypt c s, b < 256)
    (row : Row) (sha256hex : String → String) (legacy : Bool) (code : String) :
    cleanValue (normalizeInstructor scrypt row "Salt") ≠ "" ∧
    (storedScryptHash (normalizeInstructor scrypt row) ≠ "" ∨
      cleanValue (normalizeInstructor scrypt row "Code") = "") ∧
    verifyPassword scrypt sha256hex legacy (normalizeInstructor scrypt row) code =
      verifyStrongOnly scrypt (normalizeInstructor scrypt row) code := by
  have hsalt : cleanValue (normalizeInstructor scrypt row "Salt") ≠ "" := by
    rw [normalizeInstructor_Salt]
    exact jsTrim_saltOf row
  refine ⟨hsalt, ?_⟩
  by_cases hp : storedScryptHash row = ""
  · by_cases hc : cleanValue (row "Code") = ""
    · obtain ⟨hpw, hsc, hcd⟩ := normalizeInstructor_bare scrypt row hp hc
      have hsh : storedScryptHash (normalizeInstructor scrypt row) = "" := by
        show cleanValue (jsOr (normalizeInstructor scrypt row "PasswordHash")
          (normalizeInstructor scrypt row "ScryptHash")) = ""
        rw [hpw, hsc]
        exact hp
      have hcode : cleanValue (normalizeInstructor scrypt row "Code") = "" := by
        rw [hcd]
        exact hc
      refine ⟨Or.inr hcode, ?_⟩
      unfold verifyPassword verifyStrongOnly
      simp [hsh, hcode]
    · obtain ⟨hpw, hcd⟩ := normalizeInstructor_fromCode scrypt row hp hc
      have hnil : scrypt (cleanValue (row "Code")) (saltOf row) ≠ [] := by
        intro hn
        have hl := hlen (cleanValue (row "Code")) (saltOf row)
        rw [hn] at hl
        cases hl
      have hnonempty : toHex (scrypt (cleanValue (row "Code")) (saltOf row)) ≠ "" :=
        toHex_ne_empty hnil
      have hsh_ne : storedScryptHash (normalizeInstructor scrypt row) ≠ "" := by
        show cleanValue (jsOr (normalizeInstructor scrypt row "PasswordHash")
          (normalizeInstructor scrypt row "ScryptHash")) ≠ ""
        have ht : truthy (some (toHex (scrypt (cleanValue (row "Code")) (saltOf row)))) = true :=
          decide_eq_true hnonempty
        rw [hpw, jsOr, if_pos ht]
        exact jsTrim_toHex_ne_empty hnil (hbytes (cleanValue (row "Code")) (saltOf row))
      refine ⟨Or.inl hsh_ne, ?_⟩
      rw [verifyPassword_strong_branch scrypt sha256hex legacy
          (normalizeInstructor scrypt row) code hsh_ne hsalt,
        verifyStrongOnly_branch scrypt (normalizeInstructor scrypt row) code hsh_ne hsalt]
  · obtain ⟨hpw, hsc, hcd⟩ := normalizeInstructor_strong scrypt row hp
    have hsh_ne : storedScryptHash (normalizeInstructor scrypt row) ≠ "" := by
      show cleanValue (jsOr (normalizeInstructor scrypt row "PasswordHash")
        (normalizeInstructor scrypt row "ScryptHash")) ≠ ""
      have ht : truthy (some (storedScryptHash row)) = true := decide_eq_true hp
      rw [hpw, jsOr, if_pos ht]
      exact jsTrim_jsTrim_ne hp
    refine ⟨Or.inl hsh_ne, ?_⟩
    rw [verifyPassword_strong_branch scrypt sha256hex legacy
        (normalizeInstructor scrypt row) code hsh_ne hsalt,
      verifyStrongOnly_branch scrypt (normalizeInstructor scrypt row) code hsh_ne hsalt]

/-- C9 witness at a concrete credential-free row and the concrete scrypt. -/
theorem claim_C9_witness :
    cleanValue (normalizeInstructor demoScrypt rowDupId "Salt") ≠ "" ∧
    (storedScryptHash (normalizeInstructor demoScrypt rowDupId) ≠ "" ∨
      cleanValue (normalizeInstructor demoScrypt rowDupId "Code") = "") ∧
    verifyPassword demoScrypt (fun _ => "") true (normalizeInstructor demoScrypt rowDupId) "x" =
      verifyStrongOnly demoScrypt (normalizeInstructor demoScrypt rowDupId) "x" :=
  claim_C9_normalized_strong_only demoScrypt (fun _ _ => rfl)
    (fun _ _ b hb => by have := List.eq_of_mem_replicate hb; omega)
    rowDupId (fun _ => "") true "x"

/-- C10: at a concrete record whose field-group 1 has a present, non-cancelled
but unparseable date, extraction throws "Invalid time value" instead of
skipping the group or returning a list, and the authenticated schedule
request for that employee answers 500; extraction is total whenever every
active field-group's date parses, in which case it returns the filtered,
in-order activity list. -/
theorem claim_C10_unparseable_date_throws :
    extractActivities demoDateParse rowBadDate = .error "Invalid time value" ∧
    (scheduleHandler demoDateParse storeBadDate
      (createSession emptySessions "tok" 0 "1001" "Bob") (some "Bearer tok") 0).1 =
      .serverError "Invalid time value" ∧
    ((scheduleHandler demoDateParse storeBadDate
      (createSession emptySessions "tok" 0 "1001" "Bob") (some "Bearer tok") 0).1).status = 500 ∧
    (∀ pd row, (∀ i, 1 ≤ i → i ≤ 16 → groupActive row i = true → groupParses pd row i = true) →
      extractActivities pd row =
        .ok (((List.range' 1 16).filter (groupEmits pd row)).map (emitActivity pd row))) := by
  refine ⟨by decide, by decide, by decide, ?_⟩
  intro pd row h
  refine extractFrom_ok_of pd row (List.range' 1 16) ?_
  intro i hi
  have hm := List.mem_range'_1.mp hi
  exact h i hm.1 (by omega)

/-- C10 witness: with a total date parser, extraction succeeds. -/
theorem claim_C10_witness :
    extractActivities (fun _ => some "1970-01-01T00:00:00.000Z") (fun _ => none) =
      .ok (((List.range' 1 16).filter
          (groupEmits (fun _ => some "1970-01-01T00:00:00.000Z") (fun _ => none))).map
        (emitActivity (fun _ => some "1970-01-01T00:00:00.000Z") (fun _ => none))) :=
  claim_C10_unparseable_date_throws.2.2.2 (fun _ => some "1970-01-01T00:00:00.000Z")
    (fun _ => none) (fun _ _ _ _ => rfl)

end WeeklyPlanner
